import Mathlib

/-!
Verification development for the babel-based i18n literal-extraction
transform.  The definitions below are a shallow embedding of the
repository's main module (the file imported as `part_000`): the
qualifying-script regular expression, the whitespace normalization
applied to matched literals, the pinyin-based key generator, the six
babel visitors of `transform`, the auto-import injection, the
`Map`-backed aggregation store, and the batch driver `exec`.

The pinyin transliteration service (package `pinyin-pro`) is external to
the repository; every definition that needs it takes a function
`py : String → List String` (text to ordered romanized syllables) as a
parameter, exactly as the code consumes `pinyin(text, { toneType:
'none', type: 'array' })` as a black box.
-/

/-- The character class of JavaScript `\s` (also the set stripped by
`String.prototype.trim`): tab, line feed, vertical tab, form feed,
carriage return, space, no-break space, Ogham space mark, the
`U+2000`–`U+200A` spaces, line/paragraph separator, narrow no-break
space, medium mathematical space, ideographic space, and the BOM. -/
def isJsWs (c : Char) : Bool :=
  c.toNat = 0x9 || c.toNat = 0xa || c.toNat = 0xb || c.toNat = 0xc || c.toNat = 0xd ||
  c.toNat = 0x20 || c.toNat = 0xa0 || c.toNat = 0x1680 ||
  (0x2000 ≤ c.toNat && c.toNat ≤ 0x200a) ||
  c.toNat = 0x2028 || c.toNat = 0x2029 || c.toNat = 0x202f || c.toNat = 0x205f ||
  c.toNat = 0x3000 || c.toNat = 0xfeff

/-- A character of the qualifying script: the three codepoint ranges of
the source's `REGEXP = /[㐀-䶿一-鿿豈-﫿]/`
(CJK Unified Ideographs Extension A, CJK Unified Ideographs, and the
CJK Compatibility Ideographs block). -/
def isCJKChar (c : Char) : Bool :=
  (0x3400 ≤ c.toNat && c.toNat ≤ 0x4dbf) ||
  (0x4e00 ≤ c.toNat && c.toNat ≤ 0x9fff) ||
  (0xf900 ≤ c.toNat && c.toNat ≤ 0xfaff)

/-- `REGEXP.test(s)`: the regular expression has no anchors and a single
character class, so the test holds exactly when some character of `s`
lies in one of the three ranges. -/
def testCJK (s : String) : Bool := s.data.any isCJKChar

/-- `s.trim()`: strip leading and trailing JavaScript whitespace. -/
def jsTrim (s : String) : String :=
  ⟨((s.data.dropWhile isJsWs).reverse.dropWhile isJsWs).reverse⟩

/-- `s.replace(/\s+/g, '')`: every maximal run of whitespace is replaced
by the empty string, which deletes every whitespace character. -/
def stripWs (s : String) : String := ⟨s.data.filter (fun c => !isJsWs c)⟩

/-- The normalization the visitors apply to a matched text before key
generation and store insertion: `value.trim().replace(/\s+/g, '')`. -/
def normalizeText (s : String) : String := stripWs (jsTrim s)

/-- `generateKey`, parameterized by the transliteration service `py`:
`pinyin(chinese, { toneType: 'none', type: 'array' })` yields the
syllable array, and the length-tiered truncation keeps the first 1 / 2 /
4 letters of each syllable (`v.slice(0, n)`) for `≥16` / `≥8` / `≥4`
syllables, or the whole syllables below 4, joined with no separator. -/
def generateKey (py : String → List String) (chinese : String) : String :=
  if 16 ≤ (py chinese).length then String.join ((py chinese).map (fun v => v.take 1))
  else if 8 ≤ (py chinese).length then String.join ((py chinese).map (fun v => v.take 2))
  else if 4 ≤ (py chinese).length then String.join ((py chinese).map (fun v => v.take 4))
  else String.join (py chinese)

/-- One value of the aggregation store (the source's `Record` typedef):
`data.set(raw, { origin: raw, key: key, zh_CN: raw })`. -/
structure Rec where
  origin : String
  key : String
  zh_CN : String
deriving Repr, DecidableEq

/-- The entry written for a normalized text `raw`: `origin` and `zh_CN`
are the normalized text itself and `key` is `generateKey(raw)`. -/
def mkRec (py : String → List String) (raw : String) : Rec :=
  ⟨raw, generateKey py raw, raw⟩

/-- The aggregation store: a JavaScript `Map<string, Record>` iterates
in insertion order, so it is modelled as an association list in
insertion order with unique keys maintained by `mapSet`. -/
abbrev Store := List (String × Rec)

/-- `Map.prototype.set`: overwrite the value in place when the key is
already present (keeping its original position), otherwise append the
new pair at the end. -/
def mapSet (store : Store) (k : String) (v : Rec) : Store :=
  if store.any (fun p => p.1 = k) then
    store.map (fun p => if p.1 = k then (k, v) else p)
  else store ++ [(k, v)]

/-- Apply the sequence of `data.set(raw, mkRec raw)` calls a traversal
emits, in traversal order. -/
def applyRaws (py : String → List String) (store : Store) (raws : List String) : Store :=
  raws.foldl (fun st raw => mapSet st raw (mkRec py raw)) store

/-- Keep-first deduplication relative to a set of already-seen keys:
the shape a sequence of `Map.set` calls with per-key-constant values
leaves the map in. -/
def dedupFirstAux : List String → List String → List String
  | _, [] => []
  | seen, r :: rs =>
      if r ∈ seen then dedupFirstAux seen rs
      else r :: dedupFirstAux (r :: seen) rs

/-- First-occurrence deduplication of a list of texts. -/
def dedupFirst (raws : List String) : List String := dedupFirstAux [] raws

/-- The keys of the store, in iteration order. -/
def storeKeys (st : Store) : List String := st.map (fun p => p.1)

/-- A static segment of a template literal (babel's `TemplateElement`):
`value.raw`, `value.cooked` (which babel leaves `null` on invalid escape
sequences, hence the option), and the `tail` flag. -/
structure TmplElem where
  rawStr : String
  cooked : Option String
  tailFlag : Bool
deriving Repr, DecidableEq

/-- `node.value.cooked ?? node.value.raw`: the text the visitors read
from a template segment. -/
def elemText (q : TmplElem) : String := q.cooked.getD q.rawStr

/-- `babel.types.templateElement({ raw: '', cooked: '' }, tail)`: the
empty boundary segment spliced around an injected interpolation. -/
def emptyElem (tail : Bool) : TmplElem := ⟨"", some "", tail⟩

mutual

/-- The expression fragment of the babel syntax tree that the six
visitors of `transform` inspect or produce.  `tsLitType` is a
`TSLiteralType` node wrapping its literal; `jsxElem` carries the
attributes of the opening element and the children. -/
inductive Expr : Type where
  | strLit (value : String) : Expr
  | numLit (value : Int) : Expr
  | boolLit (value : Bool) : Expr
  | ident (name : String) : Expr
  | call (callee : Expr) (args : List Expr) : Expr
  | arr (elements : List Expr) : Expr
  | obj (properties : List Property) : Expr
  | tmpl (quasis : List TmplElem) (exprs : List Expr) : Expr
  | tsLitType (lit : Expr) : Expr
  | jsxElem (attrs : List JSXAttr) (children : List JSXChild) : Expr

/-- An `ObjectProperty` node: its key and value expressions. -/
inductive Property : Type where
  | prop (key : Expr) (value : Expr) : Property

/-- A `JSXAttribute` node: its name and optional value. -/
inductive JSXAttr : Type where
  | attr (name : String) (value : Option JSXAttrVal) : JSXAttr

/-- A JSX attribute value: a string literal or a
`JSXExpressionContainer`. -/
inductive JSXAttrVal : Type where
  | str (value : String) : JSXAttrVal
  | container (e : Expr) : JSXAttrVal

/-- A child of a JSX element: a `JSXText` node, a
`JSXExpressionContainer`, or a nested element. -/
inductive JSXChild : Type where
  | text (value : String) : JSXChild
  | container (e : Expr) : JSXChild
  | elem (e : Expr) : JSXChild

end

/-- One `ImportSpecifier`: `importSpecifier(local, imported)` binds
`localName` to the export `importedName`. -/
structure ImportSpec where
  localName : String
  importedName : String
deriving Repr, DecidableEq

/-- A top-level statement, as far as the transform distinguishes them:
an `ImportDeclaration` (whose source starts as a string literal but is a
general expression here because the `StringLiteral` visitor also
visits import sources), an expression statement, or a variable declaration. -/
inductive Stmt : Type where
  | importDecl (specifiers : List ImportSpec) (source : Expr) : Stmt
  | exprStmt (e : Expr) : Stmt
  | varDecl (kind : String) (name : String) (init : Option Expr) : Stmt

/-- The fields of the resolved options that `transform` reads:
`autoImport`, `importIdentity` (used both as the inserted import's bound
name and as the callee of every generated lookup call), and
`importSource`. -/
structure Options where
  autoImport : Bool
  importIdentity : String
  importSource : String
deriving Repr, DecidableEq

/-- The lookup call every visitor splices in:
`callExpression(identifier(importIdentity), [stringLiteral(key)])`. -/
def mkCall (fnId : String) (key : String) : Expr :=
  Expr.call (Expr.ident fnId) [Expr.strLit key]

/-- The replacement for a matched object key:
`arrayExpression([callExpression(identifier(importIdentity),
[stringLiteral(key)])])`.  The generator prints an `ArrayExpression` in
key position as `[i18n("key")]`, i.e. as a computed key. -/
def computedKey (fnId : String) (key : String) : Expr :=
  Expr.arr [mkCall fnId key]

/-- The `TemplateLiteral` visitor's loop over a snapshot of the original
quasis: every segment whose text matches `REGEXP` is replaced (via
`quasis.splice(index, 1, …)`) by two empty boundary segments, the second
one marked `tail` exactly when the segment was the last of the template;
the second component records, per original segment, the normalized text
whose lookup call `expressions.splice(index, 0, …)` inserts at that
slot (`none` for a non-matching segment). -/
def splitQuasis : List TmplElem → List TmplElem × List (Option String)
  | [] => ([], [])
  | [q] =>
      if testCJK (elemText q) then
        ([emptyElem false, emptyElem true], [some (normalizeText (elemText q))])
      else ([q], [none])
  | q :: rest =>
      let rs := splitQuasis rest
      if testCJK (elemText q) then
        (emptyElem false :: emptyElem false :: rs.1, some (normalizeText (elemText q)) :: rs.2)
      else (q :: rs.1, none :: rs.2)

/-- Rebuild the expression list of a rewritten template: the lookup call
of each matched segment is inserted immediately before the interpolation
that followed the segment (or at the end, for the final segment), so the
pre-existing interpolations keep their relative order. -/
def buildExprs (fnId : String) (py : String → List String) :
    List (Option String) → List Expr → List Expr
  | [], es => es
  | o :: os, [] =>
      match o with
      | some raw => mkCall fnId (generateKey py raw) :: buildExprs fnId py os []
      | none => buildExprs fnId py os []
  | o :: os, e :: es =>
      match o with
      | some raw => mkCall fnId (generateKey py raw) :: e :: buildExprs fnId py os es
      | none => e :: buildExprs fnId py os es

mutual

/-- The expression-level effect of `babel.traverse` with the
`StringLiteral`, `ObjectProperty`, `TemplateLiteral`, `JSXAttribute` and
`JSXText` visitors of `transform`: pre-order, parents before children,
returning the rewritten node together with the normalized texts passed
to `data.set`, in emission order.  A node whose `REGEXP` test succeeds
is replaced by `i18n(key)` and its normalized text recorded; replacement
nodes are requeued by babel but their key strings are romanized pinyin,
which never matches `REGEXP`, so they are final and are not re-entered
here.  The `StringLiteral` and `TemplateLiteral` visitors return early
when `path.parentPath.node` is a `TSLiteralType`, so nothing below a
`tsLitType` node is rewritten or recorded. -/
def rewriteExpr (fnId : String) (py : String → List String) : Expr → Expr × List String
  | .strLit v =>
      if testCJK v then
        let raw := normalizeText v
        (mkCall fnId (generateKey py raw), [raw])
      else (.strLit v, [])
  | .numLit n => (.numLit n, [])
  | .boolLit b => (.boolLit b, [])
  | .ident n => (.ident n, [])
  | .call c args =>
      let rc := rewriteExpr fnId py c
      let ra := rewriteList fnId py args
      (.call rc.1 ra.1, rc.2 ++ ra.2)
  | .arr elems =>
      let ra := rewriteList fnId py elems
      (.arr ra.1, ra.2)
  | .obj props =>
      let rp := rewriteProps fnId py props
      (.obj rp.1, rp.2)
  | .tmpl quasis exprs =>
      let sq := splitQuasis quasis
      let re := rewriteList fnId py exprs
      (.tmpl sq.1 (buildExprs fnId py sq.2 re.1), sq.2.filterMap id ++ re.2)
  | .tsLitType e => (.tsLitType e, [])
  | .jsxElem attrs children =>
      let ra := rewriteAttrs fnId py attrs
      let rc := rewriteChildren fnId py children
      (.jsxElem ra.1 rc.1, ra.2 ++ rc.2)

/-- Child lists are traversed left to right. -/
def rewriteList (fnId : String) (py : String → List String) :
    List Expr → List Expr × List String
  | [] => ([], [])
  | e :: es =>
      let re := rewriteExpr fnId py e
      let rs := rewriteList fnId py es
      (re.1 :: rs.1, re.2 ++ rs.2)

/-- The `ObjectProperty` visitor, then the traversal of the property's
children: a string-literal or identifier key matching `REGEXP` is
normalized, recorded, and replaced by the computed-key expression; any
other key, and always the value, is traversed as an ordinary node. -/
def rewriteProp (fnId : String) (py : String → List String) : Property → Property × List String
  | .prop k v =>
      let rk : Expr × List String :=
        match k with
        | .strLit s =>
            if testCJK s then
              let raw := normalizeText s
              (computedKey fnId (generateKey py raw), [raw])
            else (.strLit s, [])
        | .ident n =>
            if testCJK n then
              let raw := normalizeText n
              (computedKey fnId (generateKey py raw), [raw])
            else (.ident n, [])
        | e => rewriteExpr fnId py e
      let rv := rewriteExpr fnId py v
      (.prop rk.1 rv.1, rk.2 ++ rv.2)

def rewriteProps (fnId : String) (py : String → List String) :
    List Property → List Property × List String
  | [] => ([], [])
  | p :: ps =>
      let rp := rewriteProp fnId py p
      let rs := rewriteProps fnId py ps
      (rp.1 :: rs.1, rp.2 ++ rs.2)

/-- The `JSXAttribute` visitor: a string-literal value matching `REGEXP`
becomes `jsxExpressionContainer(i18n(key))`; an expression container is
traversed as an ordinary subtree. -/
def rewriteAttr (fnId : String) (py : String → List String) : JSXAttr → JSXAttr × List String
  | .attr n v =>
      match v with
      | some (.str s) =>
          if testCJK s then
            let raw := normalizeText s
            (.attr n (some (.container (mkCall fnId (generateKey py raw)))), [raw])
          else (.attr n (some (.str s)), [])
      | some (.container e) =>
          let re := rewriteExpr fnId py e
          (.attr n (some (.container re.1)), re.2)
      | none => (.attr n none, [])

def rewriteAttrs (fnId : String) (py : String → List String) :
    List JSXAttr → List JSXAttr × List String
  | [] => ([], [])
  | a :: as_ =>
      let ra := rewriteAttr fnId py a
      let rs := rewriteAttrs fnId py as_
      (ra.1 :: rs.1, ra.2 ++ rs.2)

/-- The `JSXText` visitor: a text node matching `REGEXP` is replaced
whole by `jsxExpressionContainer(i18n(key))`. -/
def rewriteChild (fnId : String) (py : String → List String) : JSXChild → JSXChild × List String
  | .text s =>
      if testCJK s then
        let raw := normalizeText s
        (.container (mkCall fnId (generateKey py raw)), [raw])
      else (.text s, [])
  | .container e =>
      let re := rewriteExpr fnId py e
      (.container re.1, re.2)
  | .elem e =>
      let re := rewriteExpr fnId py e
      (.elem re.1, re.2)

def rewriteChildren (fnId : String) (py : String → List String) :
    List JSXChild → List JSXChild × List String
  | [] => ([], [])
  | c :: cs =>
      let rc := rewriteChild fnId py c
      let rs := rewriteChildren fnId py cs
      (rc.1 :: rs.1, rc.2 ++ rs.2)

end

/-- Statement-level traversal: the `StringLiteral` visitor also reaches
an import declaration's source (so it is rewritten like any other
string), expression statements and initializers are ordinary subtrees,
and specifier identifiers are not visited by any visitor. -/
def rewriteStmt (fnId : String) (py : String → List String) : Stmt → Stmt × List String
  | .importDecl specs src =>
      let rs := rewriteExpr fnId py src
      (.importDecl specs rs.1, rs.2)
  | .exprStmt e =>
      let re := rewriteExpr fnId py e
      (.exprStmt re.1, re.2)
  | .varDecl k n i =>
      match i with
      | some e =>
          let re := rewriteExpr fnId py e
          (.varDecl k n (some re.1), re.2)
      | none => (.varDecl k n none, [])

def rewriteBody (fnId : String) (py : String → List String) :
    List Stmt → List Stmt × List String
  | [] => ([], [])
  | s :: ss =>
      let rs := rewriteStmt fnId py s
      let rest := rewriteBody fnId py ss
      (rs.1 :: rest.1, rs.2 ++ rest.2)

/-- The detection predicate of the `Program` visitor, per statement:
`isImportDeclaration(node) && node.specifiers.some(nd => nd.local.name
=== importIdentity) && node.source.value === importSource`.  Reading
`.value` of a non-string-literal source yields `undefined`, which is
never strictly equal to the configured string. -/
def importMatches (importIdentity importSource : String) : Stmt → Bool
  | .importDecl specs (.strLit v) =>
      specs.any (fun sp => sp.localName = importIdentity) && v = importSource
  | _ => false

/-- `path.node.body.some(...)`: some top-level statement is an import
declaration binding the configured identity from the configured
source. -/
def hasImport (opts : Options) (body : List Stmt) : Bool :=
  body.any (importMatches opts.importIdentity opts.importSource)

/-- The declaration the `Program` visitor unshifts:
`importDeclaration([importSpecifier(identifier(importIdentity),
identifier(importIdentity))], stringLiteral(importSource))`. -/
def newImport (opts : Options) : Stmt :=
  Stmt.importDecl [⟨opts.importIdentity, opts.importIdentity⟩] (.strLit opts.importSource)

/-- The `Program` visitor: when `autoImport` is set and no matching
declaration is present, unshift the new import onto the body. -/
def injectImport (opts : Options) (body : List Stmt) : List Stmt :=
  if opts.autoImport && !(hasImport opts body) then newImport opts :: body
  else body

/-- The traversal stage of `transform` on a parsed unit: the `Program`
visitor runs on the root first (so an unshifted import is itself part of
the body the other visitors then traverse), then the rewriting visitors
walk the body.  Returns the rewritten body and the `data.set` emissions
in order. -/
def transformProgram (opts : Options) (py : String → List String)
    (body : List Stmt) : List Stmt × List String :=
  rewriteBody opts.importIdentity py (injectImport opts body)

/-- `transform(input, options, data)` given the external parse result:
`parseAsync` yielding `null` returns `null` before any traversal, so the
store is untouched; otherwise the tree is traversed, the store receives
the emissions in traversal order, and the printed unit is returned
(printing is the external `transformFromAstAsync`, modelled as
succeeding; its own `null` results are covered by the batch driver
taking an arbitrary `Option` per unit). -/
def transform (opts : Options) (py : String → List String)
    (parsed : Option (List Stmt)) (store : Store) : Option (List Stmt) × Store :=
  match parsed with
  | none => (none, store)
  | some body =>
      let r := transformProgram opts py body
      (some r.1, applyRaws py store r.2)

/-- The per-entry loop of `exec` over a directory's files, one shared
store: each unit is transformed; on a `null` result the source executes
`return`, which leaves the whole `exec` call — no output is written for
that unit, no later entry is processed, and the final `exportSheet` step
is never reached (the third component records whether the loop ran to
completion).  On success the unit's output is collected and the loop
continues. -/
def runBatch (opts : Options) (py : String → List String) :
    List (Option (List Stmt)) → Store → List (List Stmt) × Store × Bool
  | [], store => ([], store, true)
  | u :: us, store =>
      match transform opts py u store with
      | (none, store') => ([], store', false)
      | (some out, store') =>
          let rest := runBatch opts py us store'
          (out :: rest.1, rest.2.1, rest.2.2)

/-! ### Helper lemmas -/

lemma filter_dropWhile_isJsWs (l : List Char) :
    (l.dropWhile isJsWs).filter (fun c => !isJsWs c) = l.filter (fun c => !isJsWs c) := by
  induction l with
  | nil => rfl
  | cons c cs ih =>
      by_cases h : isJsWs c
      · simp [List.dropWhile_cons, h, List.filter_cons, ih]
      · simp [List.dropWhile_cons, h, List.filter_cons]

/-- Trimming first makes no difference once every whitespace character
is removed: `.trim().replace(/\s+/g, '')` equals `.replace(/\s+/g, '')`. -/
lemma normalizeText_eq_stripWs (s : String) : normalizeText s = stripWs s := by
  unfold normalizeText stripWs jsTrim
  apply congrArg String.mk
  show ((((s.data.dropWhile isJsWs).reverse.dropWhile isJsWs).reverse).filter fun c => !isJsWs c)
      = s.data.filter fun c => !isJsWs c
  rw [List.filter_reverse, filter_dropWhile_isJsWs, List.filter_reverse,
    List.reverse_reverse, filter_dropWhile_isJsWs]

lemma isCJKChar_not_ws (c : Char) (h : isCJKChar c = true) : isJsWs c = false := by
  simp only [isCJKChar, Bool.or_eq_true, Bool.and_eq_true, decide_eq_true_eq] at h
  simp only [isJsWs, Bool.or_eq_false_iff, Bool.and_eq_false_iff, decide_eq_false_iff_not,
    not_le]
  omega

lemma any_cjk_filter (l : List Char) :
    (l.filter (fun c => !isJsWs c)).any isCJKChar = l.any isCJKChar := by
  induction l with
  | nil => rfl
  | cons c cs ih =>
      by_cases h : isJsWs c
      · have hc : isCJKChar c = false := by
          cases hc : isCJKChar c
          · rfl
          · rw [isCJKChar_not_ws c hc] at h; exact absurd h (by simp)
        simp [List.filter_cons, h, List.any_cons, hc, ih]
      · simp [List.filter_cons, h, List.any_cons, ih]

/-- The qualifying-script test is insensitive to whitespace removal:
no whitespace character lies in the three CJK ranges. -/
lemma testCJK_stripWs (s : String) : testCJK (stripWs s) = testCJK s := by
  unfold testCJK stripWs
  exact any_cjk_filter s.data

/-- After `mapSet st k v`, every entry at key `k` holds `v`. -/
lemma mapSet_values (st : Store) (k : String) (v : Rec) :
    ∀ p ∈ mapSet st k v, p.1 = k → p.2 = v := by
  intro p hp hpk
  unfold mapSet at hp
  split at hp
  case isTrue hin =>
      obtain ⟨q, hq, hfq⟩ := List.mem_map.mp hp
      by_cases h : q.1 = k
      · rw [if_pos h] at hfq; rw [← hfq]
      · rw [if_neg h] at hfq; exact absurd (hfq ▸ hpk) h
  case isFalse hout =>
      rcases List.mem_append.mp hp with h1 | h2
      · exfalso
        apply hout
        exact List.any_eq_true.mpr ⟨p, h1, by simp [hpk]⟩
      · simp only [List.mem_singleton] at h2
        rw [h2]

/-- After `mapSet st k v`, the key `k` is present. -/
lemma mapSet_any (st : Store) (k : String) (v : Rec) :
    (mapSet st k v).any (fun p => p.1 = k) = true := by
  unfold mapSet
  split
  case isTrue hin =>
      obtain ⟨p, hp, hpk⟩ := List.any_eq_true.mp hin
      refine List.any_eq_true.mpr ⟨(k, v), List.mem_map.mpr ⟨p, hp, ?_⟩, by simp⟩
      simp only [decide_eq_true_eq] at hpk
      rw [if_pos hpk]
  case isFalse =>
      exact List.any_eq_true.mpr ⟨(k, v), by simp, by simp⟩

/-- `Map.set` with a key already mapped to the same value is the
identity: the entry keeps its value and its position. -/
lemma mapSet_of_present (st : Store) (k : String) (v : Rec)
    (hin : st.any (fun p => p.1 = k) = true)
    (hv : ∀ p ∈ st, p.1 = k → p.2 = v) : mapSet st k v = st := by
  unfold mapSet
  rw [if_pos hin]
  have h : ∀ p ∈ st, (if p.1 = k then (k, v) else p) = p := by
    intro p hp
    by_cases hpk : p.1 = k
    · rw [if_pos hpk]
      have hv2 := hv p hp hpk
      cases p with
      | mk a b => simp only at hpk hv2; rw [hpk, hv2]
    · rw [if_neg hpk]
  calc st.map (fun p => if p.1 = k then (k, v) else p)
      = st.map id := List.map_congr_left h
    _ = st := List.map_id st

/-- `Map.set` with an absent key appends the pair. -/
lemma mapSet_of_absent (st : Store) (k : String) (v : Rec)
    (h : st.any (fun p => p.1 = k) = false) :
    mapSet st k v = st ++ [(k, v)] := by
  unfold mapSet
  rw [if_neg (by rw [h]; simp)]

/-- Setting the same key to the same value twice equals setting it
once. -/
lemma mapSet_idem (st : Store) (k : String) (v : Rec) :
    mapSet (mapSet st k v) k v = mapSet st k v :=
  mapSet_of_present _ _ _ (mapSet_any st k v) (mapSet_values st k v)

lemma dedupFirstAux_cons (seen : List String) (r : String) (rs : List String) :
    dedupFirstAux seen (r :: rs)
      = if r ∈ seen then dedupFirstAux seen rs else r :: dedupFirstAux (r :: seen) rs := rfl

lemma dedupFirstAux_congr : ∀ (rs s1 s2 : List String),
    (∀ x : String, x ∈ s1 ↔ x ∈ s2) →
    dedupFirstAux s1 rs = dedupFirstAux s2 rs := by
  intro rs
  induction rs with
  | nil => intro _ _ _; rfl
  | cons r rs ih =>
      intro s1 s2 h
      rw [dedupFirstAux_cons, dedupFirstAux_cons]
      by_cases hr : r ∈ s1
      · rw [if_pos hr, if_pos ((h r).mp hr)]
        exact ih s1 s2 h
      · rw [if_neg hr, if_neg (fun hc => hr ((h r).mpr hc))]
        congr 1
        apply ih
        intro x
        simp only [List.mem_cons, h x]

lemma dedupFirstAux_mem : ∀ (rs seen : List String) (x : String),
    x ∈ dedupFirstAux seen rs ↔ x ∈ rs ∧ x ∉ seen := by
  intro rs
  induction rs with
  | nil => intro seen x; simp [dedupFirstAux]
  | cons r rs ih =>
      intro seen x
      rw [dedupFirstAux_cons]
      by_cases hr : r ∈ seen
      · rw [if_pos hr, ih]
        constructor
        · rintro ⟨h1, h2⟩
          exact ⟨List.mem_cons_of_mem r h1, h2⟩
        · rintro ⟨h1, h2⟩
          rcases List.mem_cons.mp h1 with h | h
          · exact absurd (h ▸ hr) h2
          · exact ⟨h, h2⟩
      · rw [if_neg hr]
        simp only [List.mem_cons, ih]
        constructor
        · rintro (rfl | ⟨h1, h2⟩)
          · exact ⟨Or.inl rfl, hr⟩
          · exact ⟨Or.inr h1, fun hc => h2 (Or.inr hc)⟩
        · rintro ⟨rfl | h1, h2⟩
          · exact Or.inl rfl
          · by_cases hx : x = r
            · exact Or.inl hx
            · exact Or.inr ⟨h1, by simp [List.mem_cons, hx, h2]⟩

lemma dedupFirstAux_nodup : ∀ (rs seen : List String),
    (dedupFirstAux seen rs).Nodup := by
  intro rs
  induction rs with
  | nil => intro _; simp [dedupFirstAux]
  | cons r rs ih =>
      intro seen
      rw [dedupFirstAux_cons]
      by_cases hr : r ∈ seen
      · rw [if_pos hr]; exact ih seen
      · rw [if_neg hr]
        refine List.nodup_cons.mpr ⟨?_, ih _⟩
        intro hc
        exact ((dedupFirstAux_mem rs (r :: seen) r).mp hc).2 (List.mem_cons_self r seen)

/-- Folding a sequence of `data.set(raw, mkRec raw)` calls over a store
whose entries already have the canonical value appends exactly the
first occurrences of the keys not yet present, in order. -/
lemma applyRaws_eq (py : String → List String) : ∀ (raws : List String) (st : Store),
    (∀ p ∈ st, p.2 = mkRec py p.1) →
    applyRaws py st raws
      = st ++ (dedupFirstAux (storeKeys st) raws).map (fun r => (r, mkRec py r)) := by
  intro raws
  induction raws with
  | nil => intro st _; simp [applyRaws, dedupFirstAux]
  | cons r rs ih =>
      intro st hst
      have hmem : (r ∈ storeKeys st) ↔ (st.any (fun p => p.1 = r) = true) := by
        simp [storeKeys, List.any_eq_true]
      show applyRaws py (mapSet st r (mkRec py r)) rs = _
      by_cases hr : r ∈ storeKeys st
      · have heq : mapSet st r (mkRec py r) = st :=
          mapSet_of_present _ _ _ (hmem.mp hr)
            (fun p hp hpk => by rw [hst p hp, hpk])
        rw [heq, ih st hst, dedupFirstAux_cons, if_pos hr]
      · have hany : st.any (fun p => p.1 = r) = false := by
          cases h : st.any (fun p => p.1 = r)
          · rfl
          · exact absurd (hmem.mpr h) hr
        rw [mapSet_of_absent st r (mkRec py r) hany]
        rw [ih (st ++ [(r, mkRec py r)]) ?inv]
        case inv =>
          intro p hp
          rcases List.mem_append.mp hp with h | h
          · exact hst p h
          · simp only [List.mem_singleton] at h
            rw [h]
        have hkeys : storeKeys (st ++ [(r, mkRec py r)]) = storeKeys st ++ [r] := by
          simp [storeKeys]
        rw [hkeys,
          dedupFirstAux_congr rs (storeKeys st ++ [r]) (r :: storeKeys st)
            (by intro x; simp [List.mem_append, List.mem_cons, or_comm])]
        rw [dedupFirstAux_cons, if_neg hr]
        simp [List.append_assoc]

lemma rewriteBody_eq_map (fnId : String) (py : String → List String) :
    ∀ body : List Stmt,
    (rewriteBody fnId py body).1 = body.map (fun s => (rewriteStmt fnId py s).1) := by
  intro body
  induction body with
  | nil => rfl
  | cons s ss ih => simp [rewriteBody, ih]

/-- The injected import is left unchanged by the rewriting visitors as
long as its source string contains no qualifying character. -/
lemma rewriteStmt_newImport (opts : Options) (py : String → List String)
    (h : testCJK opts.importSource = false) :
    rewriteStmt opts.importIdentity py (newImport opts) = (newImport opts, []) := by
  simp [rewriteStmt, newImport, rewriteExpr, h]

lemma importMatches_rewrite (opts : Options) (py : String → List String) (s : Stmt)
    (hs : testCJK opts.importSource = false)
    (h : importMatches opts.importIdentity opts.importSource s = true) :
    importMatches opts.importIdentity opts.importSource
      (rewriteStmt opts.importIdentity py s).1 = true := by
  match s with
  | .importDecl specs (.strLit v) =>
      have hv : v = opts.importSource := by
        simp only [importMatches, Bool.and_eq_true, decide_eq_true_eq] at h
        exact h.2
      have hcjk : testCJK v = false := hv ▸ hs
      simpa [rewriteStmt, rewriteExpr, hcjk] using h
  | .importDecl specs (.numLit n) => simp [importMatches] at h
  | .importDecl specs (.boolLit b) => simp [importMatches] at h
  | .importDecl specs (.ident n) => simp [importMatches] at h
  | .importDecl specs (.call c args) => simp [importMatches] at h
  | .importDecl specs (.arr es) => simp [importMatches] at h
  | .importDecl specs (.obj ps) => simp [importMatches] at h
  | .importDecl specs (.tmpl qs es) => simp [importMatches] at h
  | .importDecl specs (.tsLitType e) => simp [importMatches] at h
  | .importDecl specs (.jsxElem a c) => simp [importMatches] at h
  | .exprStmt e => simp [importMatches] at h
  | .varDecl k n i => simp [importMatches] at h

lemma hasImport_rewriteBody (opts : Options) (py : String → List String) (body : List Stmt)
    (hs : testCJK opts.importSource = false)
    (h : hasImport opts body = true) :
    hasImport opts (rewriteBody opts.importIdentity py body).1 = true := by
  unfold hasImport at h ⊢
  rw [rewriteBody_eq_map]
  obtain ⟨s, hsin, hm⟩ := List.any_eq_true.mp h
  exact List.any_eq_true.mpr
    ⟨_, List.mem_map.mpr ⟨s, hsin, rfl⟩, importMatches_rewrite opts py s hs hm⟩

lemma hasImport_newImport_cons (opts : Options) (body : List Stmt) :
    hasImport opts (newImport opts :: body) = true := by
  simp [hasImport, importMatches, newImport, List.any_cons]

/-- All `data.set` emissions of a batch over successfully parsed units,
in unit order then traversal order. -/
def batchRaws (opts : Options) (py : String → List String)
    (bodies : List (List Stmt)) : List String :=
  (bodies.map (fun b => (transformProgram opts py b).2)).flatten

lemma applyRaws_append (py : String → List String) (st : Store) (r1 r2 : List String) :
    applyRaws py st (r1 ++ r2) = applyRaws py (applyRaws py st r1) r2 := by
  simp [applyRaws, List.foldl_append]

lemma runBatch_store (opts : Options) (py : String → List String) :
    ∀ (bodies : List (List Stmt)) (st : Store),
    (runBatch opts py (bodies.map some) st).2.1
      = applyRaws py st (batchRaws opts py bodies) := by
  intro bodies
  induction bodies with
  | nil => intro st; simp [runBatch, batchRaws, applyRaws]
  | cons b bs ih =>
      intro st
      show (runBatch opts py (some b :: bs.map some) st).2.1 = _
      rw [show runBatch opts py (some b :: bs.map some) st
            = (((transformProgram opts py b).1 :: (runBatch opts py (bs.map some)
                  (applyRaws py st (transformProgram opts py b).2)).1),
               (runBatch opts py (bs.map some)
                  (applyRaws py st (transformProgram opts py b).2)).2.1,
               (runBatch opts py (bs.map some)
                  (applyRaws py st (transformProgram opts py b).2)).2.2) from rfl]
      rw [ih]
      simp [batchRaws, applyRaws_append]

lemma rewriteList_length (fnId : String) (py : String → List String) :
    ∀ es : List Expr, (rewriteList fnId py es).1.length = es.length := by
  intro es
  induction es with
  | nil => rfl
  | cons e es ih => simp [rewriteList, ih]

lemma buildExprs_length (fnId : String) (py : String → List String) :
    ∀ (os : List (Option String)) (es : List Expr),
    (buildExprs fnId py os es).length = es.length + (os.filterMap id).length := by
  intro os
  induction os with
  | nil => intro es; simp [buildExprs]
  | cons o os ih =>
      intro es
      cases es with
      | nil =>
          cases o with
          | some raw => simp [buildExprs, ih, List.filterMap_cons]
          | none => simp [buildExprs, ih, List.filterMap_cons]
      | cons e es =>
          cases o with
          | some raw =>
              simp [buildExprs, ih, List.filterMap_cons]
              omega
          | none =>
              simp [buildExprs, ih, List.filterMap_cons]
              omega

lemma splitQuasis_length : ∀ qs : List TmplElem,
    (splitQuasis qs).1.length = qs.length + qs.countP (fun q => testCJK (elemText q)) ∧
    ((splitQuasis qs).2.filterMap id).length = qs.countP (fun q => testCJK (elemText q)) := by
  intro qs
  induction qs with
  | nil => simp [splitQuasis]
  | cons q rest ih =>
      cases rest with
      | nil =>
          by_cases h : testCJK (elemText q) = true
          · simp [splitQuasis, h, List.countP_cons]
          · simp [splitQuasis, h, List.countP_cons]
      | cons q2 rest2 =>
          have hsq : splitQuasis (q :: q2 :: rest2)
              = (if testCJK (elemText q) = true then
                   (emptyElem false :: emptyElem false :: (splitQuasis (q2 :: rest2)).1,
                    some (normalizeText (elemText q)) :: (splitQuasis (q2 :: rest2)).2)
                 else (q :: (splitQuasis (q2 :: rest2)).1,
                       none :: (splitQuasis (q2 :: rest2)).2)) := rfl
          by_cases h : testCJK (elemText q) = true
          · rw [hsq, if_pos h]
            constructor
            · simp [ih.1, List.countP_cons, h]
              omega
            · simp [ih.2, List.countP_cons, h]
          · rw [hsq, if_neg h]
            constructor
            · simp [ih.1, List.countP_cons, h]
              omega
            · simp [ih.2, List.countP_cons, h]

/-! ### Concrete instances used by witnesses and counterexamples -/

/-- A concrete stand-in for the external transliteration service: one
romanized syllable per character, `"ce"` for a qualifying character. -/
def pyDemo : String → List String := fun s =>
  s.data.map (fun c => if isCJKChar c then "ce" else String.mk [c])

/-- The default resolved configuration: `autoImport: true`,
`importIdentity: 'i18n'`, `importSource: 'i18n'`. -/
def optsDemo : Options := ⟨true, "i18n", "i18n"⟩

/-! ### Claims -/

/-- C1: for an input whose transliteration yields `n` syllables,
`generateKey` concatenates, with no separator, the first 1 letter of
each syllable when `n ≥ 16`, the first 2 when `8 ≤ n < 16`, the first 4
when `4 ≤ n < 8`, and the whole syllables when `n < 4`; the tier
boundaries are exact two-sided bounds. -/
theorem generateKey_length_tiers (py : String → List String) (s : String) :
    (16 ≤ (py s).length →
       generateKey py s = String.join ((py s).map (fun v => v.take 1))) ∧
    (8 ≤ (py s).length → (py s).length < 16 →
       generateKey py s = String.join ((py s).map (fun v => v.take 2))) ∧
    (4 ≤ (py s).length → (py s).length < 8 →
       generateKey py s = String.join ((py s).map (fun v => v.take 4))) ∧
    ((py s).length < 4 → generateKey py s = String.join (py s)) := by
  refine ⟨fun h => ?_, fun h h2 => ?_, fun h h2 => ?_, fun h => ?_⟩ <;>
    unfold generateKey
  · rw [if_pos h]
  · rw [if_neg (by omega), if_pos h]
  · rw [if_neg (by omega), if_neg (by omega), if_pos h]
  · rw [if_neg (by omega), if_neg (by omega), if_neg (by omega)]

/-- Witness for C1 at the exact boundaries: transliterations of exactly
16, 8, 4 and 3 syllables fall in the 1-letter, 2-letter, 4-letter, and
full-syllable tier respectively. -/
theorem generateKey_length_tiers_witness :
    generateKey (fun _ => List.replicate 16 "abcde") ""
      = String.join ((List.replicate 16 "abcde").map (fun v => v.take 1)) ∧
    generateKey (fun _ => List.replicate 8 "abcde") ""
      = String.join ((List.replicate 8 "abcde").map (fun v => v.take 2)) ∧
    generateKey (fun _ => List.replicate 4 "abcde") ""
      = String.join ((List.replicate 4 "abcde").map (fun v => v.take 4)) ∧
    generateKey (fun _ => List.replicate 3 "abcde") ""
      = String.join (List.replicate 3 "abcde") :=
  ⟨(generateKey_length_tiers (fun _ => List.replicate 16 "abcde") "").1 (by decide),
   (generateKey_length_tiers (fun _ => List.replicate 8 "abcde") "").2.1 (by decide) (by decide),
   (generateKey_length_tiers (fun _ => List.replicate 4 "abcde") "").2.2.1 (by decide) (by decide),
   (generateKey_length_tiers (fun _ => List.replicate 3 "abcde") "").2.2.2 (by decide)⟩

/-- C9: a text is eligible exactly when some of its characters lies in
`U+3400`–`U+4DBF`, `U+4E00`–`U+9FFF` or `U+F900`–`U+FAFF`; a string
literal with no such character is left untouched and emits no store
entry. -/
theorem eligibility_cjk_ranges (fnId : String) (py : String → List String) (s : String) :
    (testCJK s = true ↔ ∃ c ∈ s.data,
       (0x3400 ≤ c.toNat ∧ c.toNat ≤ 0x4dbf) ∨
       (0x4e00 ≤ c.toNat ∧ c.toNat ≤ 0x9fff) ∨
       (0xf900 ≤ c.toNat ∧ c.toNat ≤ 0xfaff)) ∧
    (testCJK s = false → rewriteExpr fnId py (.strLit s) = (.strLit s, [])) := by
  constructor
  · simp only [testCJK, List.any_eq_true, isCJKChar, Bool.or_eq_true, Bool.and_eq_true,
      decide_eq_true_eq]
    constructor
    · rintro ⟨c, hc, h⟩; exact ⟨c, hc, by tauto⟩
    · rintro ⟨c, hc, h⟩; exact ⟨c, hc, by tauto⟩
  · intro h
    simp [rewriteExpr, h]

/-- C10: when parsing yields no tree, `transform` returns `null` before
any traversal and the aggregation store passed in is returned
unchanged. -/
theorem parse_failure_store_unchanged (opts : Options) (py : String → List String)
    (store : Store) :
    transform opts py none store = (none, store) := rfl

/-- C2: the text of an eligible literal is normalized — trimmed with
every internal whitespace run removed entirely — before both key
generation and store insertion, so two occurrences that differ only in
whitespace produce the same rewritten node, the same key, and one and
the same store entry (the second `Map.set` is the identity). -/
theorem normalization_before_key_and_store (fnId : String) (py : String → List String)
    (s₁ s₂ : String) (st : Store)
    (hws : stripWs s₁ = stripWs s₂) (hcjk : testCJK s₁ = true) :
    normalizeText s₁ = normalizeText s₂ ∧
    rewriteExpr fnId py (.strLit s₁) = rewriteExpr fnId py (.strLit s₂) ∧
    applyRaws py st
        ((rewriteExpr fnId py (.strLit s₁)).2 ++ (rewriteExpr fnId py (.strLit s₂)).2)
      = mapSet st (normalizeText s₁) (mkRec py (normalizeText s₁)) := by
  have hn : normalizeText s₁ = normalizeText s₂ := by
    rw [normalizeText_eq_stripWs, normalizeText_eq_stripWs, hws]
  have h2 : testCJK s₂ = true := by
    rw [← testCJK_stripWs, ← hws, testCJK_stripWs]
    exact hcjk
  refine ⟨hn, ?_, ?_⟩
  · simp [rewriteExpr, hcjk, h2, hn]
  · simp only [rewriteExpr, hcjk, h2, if_true, ← hn]
    show applyRaws py st [normalizeText s₁, normalizeText s₁] = _
    show mapSet (mapSet st (normalizeText s₁) (mkRec py (normalizeText s₁)))
        (normalizeText s₁) (mkRec py (normalizeText s₁)) = _
    exact mapSet_idem st (normalizeText s₁) (mkRec py (normalizeText s₁))

/-- Witness for C2: `"测 试"` and `"测试"` differ only in whitespace;
they normalize alike, rewrite alike, and their two insertions leave a
single store entry. -/
theorem normalization_before_key_and_store_witness :
    normalizeText "测 试" = normalizeText "测试" ∧
    rewriteExpr "i18n" pyDemo (.strLit "测 试") = rewriteExpr "i18n" pyDemo (.strLit "测试") ∧
    applyRaws pyDemo []
        ((rewriteExpr "i18n" pyDemo (.strLit "测 试")).2
          ++ (rewriteExpr "i18n" pyDemo (.strLit "测试")).2)
      = mapSet [] (normalizeText "测 试") (mkRec pyDemo (normalizeText "测 试")) :=
  normalization_before_key_and_store "i18n" pyDemo "测 试" "测试" [] (by decide) (by decide)

/-- C5: every node — in particular a string literal or a template
literal — whose immediate structural parent is a `TSLiteralType` is
left untouched and emits no store entry (both the `StringLiteral` and
the `TemplateLiteral` visitor return early on that parent check), even
when its text passes the qualifying-script test; a structurally
identical string literal, and a structurally identical template
literal, sitting next to it in a runtime-value position are
rewritten into lookup calls and recorded. -/
theorem ts_literal_type_guard (fnId : String) (py : String → List String)
    (v : String) (q : TmplElem)
    (h : testCJK v = true) (hq : testCJK (elemText q) = true) :
    (∀ e : Expr, rewriteExpr fnId py (.tsLitType e) = (.tsLitType e, [])) ∧
    (rewriteExpr fnId py (.arr [.tsLitType (.strLit v), .strLit v])
       = (.arr [.tsLitType (.strLit v), mkCall fnId (generateKey py (normalizeText v))],
          [normalizeText v])) ∧
    (rewriteExpr fnId py (.arr [.tsLitType (.tmpl [q] []), .tmpl [q] []])
       = (.arr [.tsLitType (.tmpl [q] []),
                .tmpl [emptyElem false, emptyElem true]
                      [mkCall fnId (generateKey py (normalizeText (elemText q)))]],
          [normalizeText (elemText q)])) := by
  refine ⟨fun e => ?_, ?_, ?_⟩
  · simp [rewriteExpr]
  · simp [rewriteExpr, rewriteList, h]
  · simp [rewriteExpr, rewriteList, splitQuasis, buildExprs, hq]

/-- Witness for C5 at a concrete qualifying text and a concrete
qualifying template segment. -/
theorem ts_literal_type_guard_witness :
    (∀ e : Expr, rewriteExpr "i18n" pyDemo (.tsLitType e) = (.tsLitType e, [])) ∧
    (rewriteExpr "i18n" pyDemo (.arr [.tsLitType (.strLit "测试"), .strLit "测试"])
       = (.arr [.tsLitType (.strLit "测试"), mkCall "i18n" (generateKey pyDemo (normalizeText "测试"))],
          [normalizeText "测试"])) ∧
    (rewriteExpr "i18n" pyDemo
        (.arr [.tsLitType (.tmpl [⟨"测试", some "测试", true⟩] []), .tmpl [⟨"测试", some "测试", true⟩] []])
       = (.arr [.tsLitType (.tmpl [⟨"测试", some "测试", true⟩] []),
                .tmpl [emptyElem false, emptyElem true]
                      [mkCall "i18n" (generateKey pyDemo (normalizeText (elemText ⟨"测试", some "测试", true⟩)))]],
          [normalizeText (elemText ⟨"测试", some "测试", true⟩)])) :=
  ts_literal_type_guard "i18n" pyDemo "测试" ⟨"测试", some "测试", true⟩ (by decide) (by decide)

/-- C8: an object property whose key is a qualifying string literal or
bare identifier gets its static key replaced by the computed-key
expression wrapping a lookup call (the `ArrayExpression` the visitor
assigns prints as `[i18n("key")]`), while the value is handled
independently as its own node: a numeric value stays untouched, and an
eligible string value is rewritten separately, with the key's emission
preceding the value's. -/
theorem object_property_key_rewrite (fnId : String) (py : String → List String)
    (s v : String) (n : Int)
    (hs : testCJK s = true) :
    (rewriteProp fnId py (.prop (.strLit s) (.numLit n))
       = (.prop (computedKey fnId (generateKey py (normalizeText s))) (.numLit n),
          [normalizeText s])) ∧
    (rewriteProp fnId py (.prop (.ident s) (.numLit n))
       = (.prop (computedKey fnId (generateKey py (normalizeText s))) (.numLit n),
          [normalizeText s])) ∧
    (testCJK v = true →
       rewriteProp fnId py (.prop (.strLit s) (.strLit v))
         = (.prop (computedKey fnId (generateKey py (normalizeText s)))
              (mkCall fnId (generateKey py (normalizeText v))),
            [normalizeText s, normalizeText v])) := by
  refine ⟨?_, ?_, fun hv => ?_⟩
  · simp [rewriteProp, rewriteExpr, hs]
  · simp [rewriteProp, rewriteExpr, hs]
  · simp [rewriteProp, rewriteExpr, hs, hv]

/-- Witness for C8: the scenario `{'键名': 10}` plus an eligible string
value. -/
theorem object_property_key_rewrite_witness :
    (rewriteProp "i18n" pyDemo (.prop (.strLit "键名") (.numLit 10))
       = (.prop (computedKey "i18n" (generateKey pyDemo (normalizeText "键名"))) (.numLit 10),
          [normalizeText "键名"])) ∧
    (rewriteProp "i18n" pyDemo (.prop (.ident "键名") (.numLit 10))
       = (.prop (computedKey "i18n" (generateKey pyDemo (normalizeText "键名"))) (.numLit 10),
          [normalizeText "键名"])) ∧
    (testCJK "键值" = true →
       rewriteProp "i18n" pyDemo (.prop (.strLit "键名") (.strLit "键值"))
         = (.prop (computedKey "i18n" (generateKey pyDemo (normalizeText "键名")))
              (mkCall "i18n" (generateKey pyDemo (normalizeText "键值"))),
            [normalizeText "键名", normalizeText "键值"])) :=
  object_property_key_rewrite "i18n" pyDemo "键名" "键值" 10 (by decide)

/-- C6: in a template literal every qualifying static segment is spliced
into two empty boundary segments (the second marked `tail` only for the
final segment) with the segment's lookup call inserted at that
interpolation slot, while pre-existing interpolations and non-qualifying
segments keep their relative order; a template with three static
segments of which the first and third qualify gains exactly two lookup
interpolations, and in general the rewritten template has exactly one
extra segment and one extra expression per qualifying segment. -/
theorem template_segment_rewrite (fnId : String) (py : String → List String)
    (q1 q2 q3 : TmplElem) (e1 e2 : Expr)
    (h1 : testCJK (elemText q1) = true) (h2 : testCJK (elemText q2) = false)
    (h3 : testCJK (elemText q3) = true) :
    rewriteExpr fnId py (.tmpl [q1, q2, q3] [e1, e2])
      = (.tmpl [emptyElem false, emptyElem false, q2, emptyElem false, emptyElem true]
          [mkCall fnId (generateKey py (normalizeText (elemText q1))),
           (rewriteExpr fnId py e1).1, (rewriteExpr fnId py e2).1,
           mkCall fnId (generateKey py (normalizeText (elemText q3)))],
         normalizeText (elemText q1) :: normalizeText (elemText q3)
           :: ((rewriteExpr fnId py e1).2 ++ (rewriteExpr fnId py e2).2)) ∧
    (∀ (quasis : List TmplElem) (exprs : List Expr),
       ∃ (qs : List TmplElem) (es : List Expr) (raws : List String),
         rewriteExpr fnId py (.tmpl quasis exprs) = (.tmpl qs es, raws) ∧
         qs.length = quasis.length + quasis.countP (fun q => testCJK (elemText q)) ∧
         es.length = exprs.length + quasis.countP (fun q => testCJK (elemText q))) := by
  constructor
  · simp [rewriteExpr, rewriteList, splitQuasis, buildExprs, h1, h2, h3]
  · intro quasis exprs
    refine ⟨(splitQuasis quasis).1,
      buildExprs fnId py (splitQuasis quasis).2 (rewriteList fnId py exprs).1,
      (splitQuasis quasis).2.filterMap id ++ (rewriteList fnId py exprs).2,
      rfl, (splitQuasis_length quasis).1, ?_⟩
    rw [buildExprs_length, rewriteList_length, (splitQuasis_length quasis).2]

/-- Witness for C6: a concrete three-segment template with two
interpolations. -/
theorem template_segment_rewrite_witness :
    rewriteExpr "i18n" pyDemo
        (.tmpl [⟨"标题", some "标题", false⟩, ⟨"abc", some "abc", false⟩,
                ⟨"结尾", some "结尾", true⟩]
               [.numLit 1, .ident "x"])
      = (.tmpl [emptyElem false, emptyElem false, ⟨"abc", some "abc", false⟩,
                emptyElem false, emptyElem true]
          [mkCall "i18n" (generateKey pyDemo (normalizeText (elemText ⟨"标题", some "标题", false⟩))),
           (rewriteExpr "i18n" pyDemo (.numLit 1)).1, (rewriteExpr "i18n" pyDemo (.ident "x")).1,
           mkCall "i18n" (generateKey pyDemo (normalizeText (elemText ⟨"结尾", some "结尾", true⟩)))],
         normalizeText (elemText ⟨"标题", some "标题", false⟩)
           :: normalizeText (elemText ⟨"结尾", some "结尾", true⟩)
           :: ((rewriteExpr "i18n" pyDemo (.numLit 1)).2 ++ (rewriteExpr "i18n" pyDemo (.ident "x")).2)) :=
  (template_segment_rewrite "i18n" pyDemo
    ⟨"标题", some "标题", false⟩ ⟨"abc", some "abc", false⟩ ⟨"结尾", some "结尾", true⟩
    (.numLit 1) (.ident "x") (by decide) (by decide) (by decide)).1

/-- C4: with auto-import enabled (and a source string containing no
qualifying character, so the injected declaration survives the
rewriting visitors that also walk it), the transform prepends the
configured import exactly once — at the very start — when no top-level
declaration importing that bound local name from that source exists, prepends
nothing when one exists, and a second run over the transformed output
performs no insertion at all. -/
theorem auto_import_once_idempotent (opts : Options) (py : String → List String)
    (body : List Stmt)
    (hAuto : opts.autoImport = true) (hSrc : testCJK opts.importSource = false) :
    (hasImport opts body = false →
       (transformProgram opts py body).1
         = newImport opts :: (rewriteBody opts.importIdentity py body).1) ∧
    (hasImport opts body = true →
       (transformProgram opts py body).1 = (rewriteBody opts.importIdentity py body).1) ∧
    ((transformProgram opts py (transformProgram opts py body).1).1
       = (rewriteBody opts.importIdentity py (transformProgram opts py body).1).1) := by
  have hpos : ∀ b : List Stmt, hasImport opts b = true →
      (transformProgram opts py b).1 = (rewriteBody opts.importIdentity py b).1 := by
    intro b hb
    unfold transformProgram injectImport
    rw [hb]
    simp
  have hneg : hasImport opts body = false →
      (transformProgram opts py body).1
        = newImport opts :: (rewriteBody opts.importIdentity py body).1 := by
    intro hb
    unfold transformProgram injectImport
    rw [hb, hAuto]
    simp only [Bool.not_false, Bool.and_self, if_true]
    show (rewriteBody opts.importIdentity py (newImport opts :: body)).1 = _
    rw [rewriteBody_eq_map, List.map_cons, rewriteStmt_newImport opts py hSrc,
      ← rewriteBody_eq_map]
  refine ⟨hneg, hpos body, ?_⟩
  have hout : hasImport opts (transformProgram opts py body).1 = true := by
    cases hb : hasImport opts body
    · rw [hneg hb]
      exact hasImport_newImport_cons opts _
    · rw [hpos body hb]
      exact hasImport_rewriteBody opts py body hSrc hb
  exact hpos _ hout

/-- Witness for C4: the default configuration over a body holding one
qualifying literal and no import: one import is prepended, and the
stated second-run equation holds. -/
theorem auto_import_once_idempotent_witness :
    (hasImport optsDemo [Stmt.exprStmt (Expr.strLit "测")] = false →
       (transformProgram optsDemo pyDemo [Stmt.exprStmt (Expr.strLit "测")]).1
         = newImport optsDemo
             :: (rewriteBody optsDemo.importIdentity pyDemo [Stmt.exprStmt (Expr.strLit "测")]).1) ∧
    (hasImport optsDemo [Stmt.exprStmt (Expr.strLit "测")] = true →
       (transformProgram optsDemo pyDemo [Stmt.exprStmt (Expr.strLit "测")]).1
         = (rewriteBody optsDemo.importIdentity pyDemo [Stmt.exprStmt (Expr.strLit "测")]).1) ∧
    ((transformProgram optsDemo pyDemo
        (transformProgram optsDemo pyDemo [Stmt.exprStmt (Expr.strLit "测")]).1).1
       = (rewriteBody optsDemo.importIdentity pyDemo
           (transformProgram optsDemo pyDemo [Stmt.exprStmt (Expr.strLit "测")]).1).1) :=
  auto_import_once_idempotent optsDemo pyDemo [Stmt.exprStmt (Expr.strLit "测")]
    rfl (by decide)

/-- C7 counterexample: the claim says a failed unit is skipped and the
remaining units are still processed; in the code the `result == null`
branch of the per-entry loop executes `return`, leaving `exec`
entirely.  With a failing first unit and a well-formed second unit the
batch produces no output at all and an empty store — although the
second unit on its own would have produced output and a store entry. -/
theorem batch_abort_counterexample :
    (runBatch optsDemo pyDemo [none, some [Stmt.exprStmt (Expr.strLit "测")]] []
       = ([], [], false)) ∧
    (runBatch optsDemo pyDemo [some [Stmt.exprStmt (Expr.strLit "测")]] []
       = ([[newImport optsDemo, Stmt.exprStmt (mkCall "i18n" "ce")]],
          [("测", ⟨"测", "ce", "测"⟩)], true)) :=
  ⟨rfl, rfl⟩

/-- C7 as amended: a unit whose transform returns `null` ends the batch
at that point — the failed unit and every unit after it are skipped
(units after the failure never affect the result), no output is written
for them, and the run never reaches its normal completion (so the sheet
export is skipped too). -/
theorem batch_abort_on_failure (opts : Options) (py : String → List String)
    (us1 us2 : List (Option (List Stmt))) (store : Store) :
    runBatch opts py (us1 ++ none :: us2) store
      = runBatch opts py (us1 ++ [none]) store ∧
    (runBatch opts py (us1 ++ [none]) store).2.2 = false := by
  induction us1 generalizing store with
  | nil => exact ⟨rfl, rfl⟩
  | cons u us ih =>
      cases u with
      | none => exact ⟨rfl, rfl⟩
      | some b =>
          have h := ih (applyRaws py store (transformProgram opts py b).2)
          constructor
          · show (((transformProgram opts py b).1 :: (runBatch opts py (us ++ none :: us2)
                  (applyRaws py store (transformProgram opts py b).2)).1),
               (runBatch opts py (us ++ none :: us2)
                  (applyRaws py store (transformProgram opts py b).2)).2.1,
               (runBatch opts py (us ++ none :: us2)
                  (applyRaws py store (transformProgram opts py b).2)).2.2)
              = _
            rw [h.1]
            rfl
          · show (runBatch opts py (us ++ [none])
                (applyRaws py store (transformProgram opts py b).2)).2.2 = false
            exact h.2

/-- C3: running the transform over any sequence of parsed units with one
shared, initially empty store leaves the store equal to the
first-occurrence deduplication of every emitted normalized text, each
paired with its canonical entry: every qualifying text encountered
appears exactly once as a key however many locations contained it, each
entry exposes `origin` and `zh_CN` equal to the normalized text and
`key` equal to `generateKey` of it, and iteration order is insertion
(first-encounter) order. -/
theorem store_aggregation_invariant (opts : Options) (py : String → List String)
    (bodies : List (List Stmt)) :
    ((runBatch opts py (bodies.map some) []).2.1
        = (dedupFirst (batchRaws opts py bodies)).map (fun r => (r, mkRec py r))) ∧
    (storeKeys ((runBatch opts py (bodies.map some) []).2.1)).Nodup ∧
    (∀ r : String, r ∈ batchRaws opts py bodies ↔
        r ∈ storeKeys ((runBatch opts py (bodies.map some) []).2.1)) ∧
    (∀ p ∈ (runBatch opts py (bodies.map some) []).2.1,
        p.2 = ⟨p.1, generateKey py p.1, p.1⟩) := by
  have hmain : (runBatch opts py (bodies.map some) []).2.1
      = (dedupFirst (batchRaws opts py bodies)).map (fun r => (r, mkRec py r)) := by
    rw [runBatch_store]
    have h := applyRaws_eq py (batchRaws opts py bodies) [] (by intro p hp; cases hp)
    simpa [dedupFirst, storeKeys] using h
  have hkeys : storeKeys ((runBatch opts py (bodies.map some) []).2.1)
      = dedupFirst (batchRaws opts py bodies) := by
    rw [hmain]
    unfold storeKeys
    rw [List.map_map]
    exact List.map_id _
  refine ⟨hmain, ?_, ?_, ?_⟩
  · rw [hkeys]
    exact dedupFirstAux_nodup _ []
  · intro r
    rw [hkeys]
    unfold dedupFirst
    rw [dedupFirstAux_mem]
    simp
  · intro p hp
    rw [hmain] at hp
    obtain ⟨r, _, hr⟩ := List.mem_map.mp hp
    rw [← hr]
    rfl
